import Mathlib

/-!
Verification development for the Hospital-Manager application core.

This file shallowly embeds the core data model and operations of the
repository (the OPD visit model, the OPD waiting queue, the doctor-slot
calculator, and the announcement subsystem) as executable Lean
definitions, and proves the behavioural properties stated about them.

Conventions used throughout:
* Python lists become Lean `List`s; Python's set of announced keys is a
  `List String` with set-style (membership-guarded) insertion.
* Python exceptions are made explicit: a sink is a `String → Bool`
  oracle where `false` means "this call raises"; an escaping exception
  is the `ok := false` component of a result record.
* Wall-clock values (`datetime.now()` strings, timestamps) are taken as
  explicit parameters, since the code only stores them.
-/

namespace HospitalManager

/-- Patient record (`models/patient.py`, class `Patient`), restricted to
the two fields the announcement core reads: `patient_id` and `name`. -/
structure Patient where
  patient_id : String
  name : String
deriving DecidableEq

/-- OPD visit record (`models/opd.py`, class `OPDVisit`): all persisted
fields of the Python object.  `vital_signs` (a Python dict) is modelled
as an association list. -/
structure OPDVisit where
  visit_id : String
  patient_id : String
  doctor_name : String
  visit_date : String
  symptoms : String
  diagnosis : String
  prescription : String
  lab_tests : String
  follow_up_date : String
  notes : String
  status : String
  vital_signs : List (String × String)
deriving DecidableEq

/-- `OPDVisit.mark_completed` (`models/opd.py` lines 156-160): sets
`status` to `"Completed"`, and additionally stamps `visit_date` with the
current time only when `visit_date` is falsy (the empty string). `now`
is the current-time string the Python code reads from the clock. -/
def OPDVisit.mark_completed (now : String) (v : OPDVisit) : OPDVisit :=
  let v1 := { v with status := "Completed" }
  if v1.visit_date = "" then { v1 with visit_date := now } else v1

/-- Appointment record (`models/appointment.py`, class `Appointment`):
all persisted fields of the Python object. -/
structure Appointment where
  appointment_id : String
  patient_id : String
  doctor_name : String
  department : String
  appointment_date : String
  appointment_time : String
  status : String
  notes : String
  created_date : String
deriving DecidableEq

/-- Static doctor configuration entry (`models/appointment.py`,
`DoctorSchedule.DEFAULT_DOCTORS` element). -/
structure DoctorProfile where
  name : String
  department : String
  slots : List String
deriving DecidableEq

/-- `DoctorSchedule.DEFAULT_DOCTORS` (`models/appointment.py` lines
166-172): the five hardcoded doctors with their fixed slot templates. -/
def DEFAULT_DOCTORS : List DoctorProfile :=
  [⟨"Dr. Smith", "General Medicine", ["09:00", "10:00", "11:00", "14:00", "15:00", "16:00"]⟩,
   ⟨"Dr. Johnson", "Cardiology", ["09:30", "10:30", "11:30", "14:30", "15:30"]⟩,
   ⟨"Dr. Williams", "Pediatrics", ["08:00", "09:00", "10:00", "11:00", "14:00", "15:00"]⟩,
   ⟨"Dr. Brown", "Orthopedics", ["10:00", "11:00", "14:00", "15:00", "16:00"]⟩,
   ⟨"Dr. Davis", "Dermatology", ["09:00", "10:00", "11:00", "15:00", "16:00"]⟩]

/-- Whether an appointment blocks a slot for `doctor_name` on `date`
(`models/appointment.py` lines 189-193): same doctor, same date, and
status `Scheduled` or `Completed`. -/
def Appointment.blocks (doctor_name date : String) (a : Appointment) : Bool :=
  a.doctor_name == doctor_name && a.appointment_date == date &&
    (a.status == "Scheduled" || a.status == "Completed")

/-- `DoctorSchedule.get_available_slots` (`models/appointment.py` lines
174-196): look up the doctor's fixed slot template (first matching
entry), return `[]` when there is none; collect the times of blocking
appointments; keep the template slots not among them, in template
order. -/
def get_available_slots (doctor_name date : String)
    (existing_appointments : List Appointment) : List String :=
  let doctor_slots :=
    match DEFAULT_DOCTORS.find? (fun d => d.name == doctor_name) with
    | some d => d.slots
    | none => []
  if doctor_slots.isEmpty then []
  else
    let booked_slots :=
      (existing_appointments.filter (Appointment.blocks doctor_name date)).map
        (fun a => a.appointment_time)
    doctor_slots.filter (fun slot => !booked_slots.contains slot)

/-- Completion record appended by the OPD queue when a patient finishes
(`models/opd.py` lines 195-201): the dict
`{name, completed_at, announced}`. -/
structure CompletionRecord where
  name : String
  completed_at : String
  announced : Bool
deriving DecidableEq

/-- OPD waiting queue (`models/opd.py`, class `OPDQueue`): the FIFO list
of waiting patient ids and today's completion records. -/
structure OPDQueue where
  queue : List String
  completed_today : List CompletionRecord
deriving DecidableEq

/-- `OPDQueue.add_patient` (`models/opd.py` lines 174-177): append the
id only when absent. -/
def OPDQueue.add_patient (q : OPDQueue) (patient_id : String) : OPDQueue :=
  if patient_id ∈ q.queue then q else { q with queue := q.queue ++ [patient_id] }

/-- `OPDQueue.remove_patient` (`models/opd.py` lines 179-182): remove
the first occurrence when present, otherwise do nothing. -/
def OPDQueue.remove_patient (q : OPDQueue) (patient_id : String) : OPDQueue :=
  if patient_id ∈ q.queue then { q with queue := q.queue.erase patient_id } else q

/-- `OPDQueue.get_next_patient` (`models/opd.py` lines 184-186). -/
def OPDQueue.get_next_patient (q : OPDQueue) : Option String :=
  q.queue.head?

/-- Index of the first occurrence of `patient_id` in a list (Python's
`list.index`, which `get_queue_position` wraps in a try/except). -/
def listIndex (patient_id : String) : List String → Option Nat
  | [] => none
  | x :: xs => if x == patient_id then some 0 else (listIndex patient_id xs).map (· + 1)

/-- `OPDQueue.get_queue_position` (`models/opd.py` lines 188-193):
1-based position in the waiting list, `-1` when absent (the Python code
catches `ValueError` from `list.index`). -/
def OPDQueue.get_queue_position (q : OPDQueue) (patient_id : String) : Int :=
  match listIndex patient_id q.queue with
  | some i => (i : Int) + 1
  | none => -1

/-- `OPDQueue.mark_patient_completed` (`models/opd.py` lines 195-201):
append an unannounced completion record stamped with the clock. -/
def OPDQueue.mark_patient_completed (now : String) (q : OPDQueue)
    (patient_name : String) : OPDQueue :=
  { q with completed_today := q.completed_today ++ [⟨patient_name, now, false⟩] }

/-- Body of `OPDQueue.mark_announced` (`models/opd.py` lines 207-212):
walk the completion records and flip `announced` on the first record
with the given name that is still unannounced, then stop. -/
def markAnnouncedFirst (patient_name : String) :
    List CompletionRecord → List CompletionRecord
  | [] => []
  | r :: rs =>
    if r.name == patient_name && !r.announced then { r with announced := true } :: rs
    else r :: markAnnouncedFirst patient_name rs

/-- `OPDQueue.mark_announced` (`models/opd.py` lines 207-212). -/
def OPDQueue.mark_announced (q : OPDQueue) (patient_name : String) : OPDQueue :=
  { q with completed_today := markAnnouncedFirst patient_name q.completed_today }

/-- `OPDQueue.get_pending_announcements` (`models/opd.py` lines
203-205). -/
def OPDQueue.get_pending_announcements (q : OPDQueue) : List CompletionRecord :=
  q.completed_today.filter (fun r => !r.announced)

/-- `OPDQueue.clear_completed_today` (`models/opd.py` lines 214-217). -/
def OPDQueue.clear_completed_today (q : OPDQueue) : OPDQueue :=
  { q with completed_today := [], queue := [] }

/-- Result of `AnnouncementSystem.get_announcement_status`
(`utils/announcement.py` lines 158-166): the status dictionary. -/
structure AnnouncementStatus where
  is_running : Bool
  tts_available : Bool
  announcement_interval : Int
  announced_today : Nat
  pending_announcements : Nat
deriving DecidableEq

/-- The mutable configuration/dedup state of an `AnnouncementSystem`
instance (`utils/announcement.py` lines 13-21): the announced-keys set
is modelled as a duplicate-free list. -/
structure AnnouncementSystemState where
  is_running : Bool
  tts_available : Bool
  announcement_interval : Int
  announced_patients : List String
  pending_announcements : List String
deriving DecidableEq

/-- `AnnouncementSystem.set_announcement_interval`
(`utils/announcement.py` lines 149-151): store `max(10, seconds)`. -/
def set_announcement_interval (st : AnnouncementSystemState)
    (interval_seconds : Int) : AnnouncementSystemState :=
  { st with announcement_interval := max 10 interval_seconds }

/-- `AnnouncementSystem.clear_announced_patients`
(`utils/announcement.py` lines 153-156): empty the dedup set. -/
def clear_announced_patients (st : AnnouncementSystemState) :
    AnnouncementSystemState :=
  { st with announced_patients := [] }

/-- `AnnouncementSystem.get_announcement_status`
(`utils/announcement.py` lines 158-166). -/
def get_announcement_status (st : AnnouncementSystemState) : AnnouncementStatus :=
  ⟨st.is_running, st.tts_available, st.announcement_interval,
   st.announced_patients.length, st.pending_announcements.length⟩

/-- `DataManager.get_patient_by_id` (`utils/data_manager.py` lines
114-120): linear scan for the first patient with the given id, `None`
when there is none. -/
def get_patient_by_id (patients : List Patient) (patient_id : String) : Option Patient :=
  patients.find? (fun p => p.patient_id == patient_id)

/-- Sink configuration of an `AnnouncementSystem` instance.  The display
callback and the TTS engine are oracles telling, per message, whether
the call returns normally (`true`) or raises (`false`);
`tts_available` is the construction-time availability flag
(`utils/announcement.py` lines 13-38). -/
structure SinkEnv where
  cb : String → Bool
  tts_available : Bool
  tts : String → Bool

/-- Observable outcome of one sink-delivery sequence: messages the
display callback delivered, messages the TTS spoke, messages the TTS
was asked to speak (attempted, whether or not it raised), and whether
the sequence completed without an escaping exception. -/
structure AnnounceOutcome where
  displayed : List String
  spoken : List String
  spokenTried : List String
  ok : Bool

/-- The sink-delivery sequence shared by
`AnnouncementSystem._announce_patient_completion` and
`AnnouncementSystem.add_manual_announcement` (`utils/announcement.py`
lines 92-101 and 107-115): call the display callback — unguarded, so an
exception escapes and skips everything after it — then, when TTS is
available, attempt speech inside a try/except that swallows TTS
errors. -/
def deliverToSinks (env : SinkEnv) (message : String) : AnnounceOutcome :=
  if env.cb message then
    if env.tts_available then
      if env.tts message then ⟨[message], [message], [message], true⟩
      else ⟨[message], [], [message], true⟩
    else ⟨[message], [], [], true⟩
  else ⟨[], [], [], false⟩

/-- The completion announcement text (`utils/announcement.py` line
90). -/
def completionMessage (patient_name doctor_name : String) : String :=
  "Patient " ++ patient_name ++ " consultation with " ++ doctor_name ++
    " is complete. Please collect your prescription from the front desk."

/-- `AnnouncementSystem._announce_patient_completion`
(`utils/announcement.py` lines 88-101). -/
def announce_patient_completion (env : SinkEnv)
    (patient_name doctor_name : String) : AnnounceOutcome :=
  deliverToSinks env (completionMessage patient_name doctor_name)

/-- The dedup key string built at `utils/announcement.py` line 80:
the f-string joining patient id and visit id with an underscore. -/
def keyOf (patient_id visit_id : String) : String :=
  patient_id ++ "_" ++ visit_id

/-- The dedup key of a visit. -/
def OPDVisit.announcementKey (v : OPDVisit) : String :=
  keyOf v.patient_id v.visit_id

/-- Python `set.add` on the announced-keys set. -/
def setAdd (s : List String) (k : String) : List String :=
  if k ∈ s then s else s ++ [k]

/-- One poll-cycle announcement delivered through the display callback,
instrumented with the visit that triggered it. -/
structure CycleEvent where
  patient_id : String
  visit_id : String
  message : String
deriving DecidableEq

/-- Result of (a suffix of) one poll cycle: delivered announcements and
per-sink message lists, the announced-set afterwards, and whether the
cycle finished without an escaping exception. -/
structure CycleResult where
  events : List CycleEvent
  displayed : List String
  spoken : List String
  spokenTried : List String
  announced : List String
  ok : Bool

/-- The per-visit loop of
`AnnouncementSystem._check_and_announce_completed_patients`
(`utils/announcement.py` lines 78-86), over the completed visits with
the announced-set threaded through: a visit whose key is already in the
set is skipped; a visit whose patient id does not resolve is skipped;
otherwise the completion is announced and only then the key added, so a
display-callback exception aborts the remaining iterations
(`ok := false`) with the key not added. -/
def processVisits (env : SinkEnv) (patients : List Patient) :
    List OPDVisit → List String → CycleResult
  | [], s => ⟨[], [], [], [], s, true⟩
  | v :: vs, s =>
    if v.announcementKey ∈ s then processVisits env patients vs s
    else
      match get_patient_by_id patients v.patient_id with
      | none => processVisits env patients vs s
      | some p =>
        let out := announce_patient_completion env p.name v.doctor_name
        if out.ok then
          let r := processVisits env patients vs (setAdd s v.announcementKey)
          ⟨⟨v.patient_id, v.visit_id, completionMessage p.name v.doctor_name⟩ :: r.events,
           out.displayed ++ r.displayed, out.spoken ++ r.spoken,
           out.spokenTried ++ r.spokenTried, r.announced, r.ok⟩
        else
          ⟨[], out.displayed, out.spoken, out.spokenTried, s, false⟩

/-- `AnnouncementSystem._check_and_announce_completed_patients`
(`utils/announcement.py` lines 72-86): restrict the record store's
today-visits to `status == "Completed"` and process them in order. -/
def check_and_announce_completed_patients (env : SinkEnv)
    (today_visits : List OPDVisit) (patients : List Patient)
    (announced : List String) : CycleResult :=
  processVisits env patients
    (today_visits.filter (fun v => v.status == "Completed")) announced

/-- The record-store snapshot one poll cycle reads: the result of
`get_todays_opd_visits()` and the patients backing
`get_patient_by_id`. -/
structure PollEnv where
  today_visits : List OPDVisit
  patients : List Patient

/-- A run of the announcement loop (`AnnouncementSystem._announcement_loop`,
`utils/announcement.py` lines 62-70): one poll cycle per wake against
that wake's record-store snapshot; an exception escaping a cycle is
caught by the loop, which carries the announced-set into the next wake.
Returns all delivered poll-cycle announcements in order together with
the final announced-set. -/
def runCycles (env : SinkEnv) : List PollEnv → List String → List CycleEvent × List String
  | [], s => ([], s)
  | e :: es, s =>
    let r := check_and_announce_completed_patients env e.today_visits e.patients s
    let rest := runCycles env es r.announced
    (r.events ++ rest.1, rest.2)

/-- Number of delivered poll-cycle announcements whose dedup key string
is `k`. -/
def countKey (evs : List CycleEvent) (k : String) : Nat :=
  evs.countP (fun e => keyOf e.patient_id e.visit_id == k)

/-- Number of delivered poll-cycle announcements for the visit pair
`(patient_id, visit_id)`. -/
def countPair (evs : List CycleEvent) (patient_id visit_id : String) : Nat :=
  evs.countP (fun e => e.patient_id == patient_id && e.visit_id == visit_id)

/-- Default manual-announcement text (`utils/announcement.py` line
105). -/
def manualMessage (patient_name : String) : String :=
  "Patient " ++ patient_name ++ ", please proceed to the front desk."

/-- Message resolution of `add_manual_announcement`
(`utils/announcement.py` line 105): Python's `custom_message or default`
falls back to the default when the custom message is `None` or empty. -/
def resolveManualMessage (patient_name : String) : Option String → String
  | some m => if m == "" then manualMessage patient_name else m
  | none => manualMessage patient_name

/-- `AnnouncementSystem.add_manual_announcement`
(`utils/announcement.py` lines 103-115): resolve the message, then the
shared sink-delivery sequence — the display callback unguarded, TTS
inside a try/except. -/
def add_manual_announcement (env : SinkEnv) (patient_name : String)
    (custom_message : Option String) : AnnounceOutcome :=
  deliverToSinks env (resolveManualMessage patient_name custom_message)

/-- Announcement queue item (`utils/announcement.py` lines 194-200):
the dict built by `add_to_queue`.  The `added_at`/`announced_at`
timestamps are abstract clock ticks. -/
structure AnnItem where
  patient_name : String
  patient_id : String
  priority : Int
  added_at : Nat
  announced : Bool
  announced_at : Option Nat
deriving DecidableEq

/-- `AnnouncementQueue` (`utils/announcement.py` lines 184-190). -/
structure AnnouncementQueue where
  queue : List AnnItem
  current_position : Nat
deriving DecidableEq

/-- Insertion scan of `AnnouncementQueue.add_to_queue`
(`utils/announcement.py` lines 202-211): insert before the first item
of strictly smaller priority, else append. -/
def insertByPriority (item : AnnItem) : List AnnItem → List AnnItem
  | [] => [item]
  | x :: xs =>
    if item.priority > x.priority then item :: x :: xs
    else x :: insertByPriority item xs

/-- `AnnouncementQueue.add_to_queue` (`utils/announcement.py` lines
192-211); `now` is the clock tick recorded as `added_at`. -/
def AnnouncementQueue.add_to_queue (q : AnnouncementQueue)
    (patient_name patient_id : String) (priority : Int) (now : Nat) :
    AnnouncementQueue :=
  { q with queue :=
      insertByPriority ⟨patient_name, patient_id, priority, now, false, none⟩ q.queue }

/-- Body of `AnnouncementQueue.get_next_announcement`
(`utils/announcement.py` lines 213-218): the first item whose
`announced` flag is false, `None` when there is none. -/
def firstUnannounced : List AnnItem → Option AnnItem
  | [] => none
  | x :: xs => if !x.announced then some x else firstUnannounced xs

/-- `AnnouncementQueue.get_next_announcement` (`utils/announcement.py`
lines 213-218). -/
def AnnouncementQueue.get_next_announcement (q : AnnouncementQueue) : Option AnnItem :=
  firstUnannounced q.queue

/-- Body of `AnnouncementQueue.mark_announced` (`utils/announcement.py`
lines 220-226): flip the first unannounced item with the given patient
id and stamp `announced_at`, then stop. -/
def markAnnouncedById (patient_id : String) (now : Nat) :
    List AnnItem → List AnnItem
  | [] => []
  | x :: xs =>
    if x.patient_id == patient_id && !x.announced then
      { x with announced := true, announced_at := some now } :: xs
    else x :: markAnnouncedById patient_id now xs

/-- `AnnouncementQueue.mark_announced` (`utils/announcement.py` lines
220-226). -/
def AnnouncementQueue.mark_announced (q : AnnouncementQueue)
    (patient_id : String) (now : Nat) : AnnouncementQueue :=
  { q with queue := markAnnouncedById patient_id now q.queue }

/-- `AnnouncementQueue.remove_from_queue` (`utils/announcement.py` lines
228-230). -/
def AnnouncementQueue.remove_from_queue (q : AnnouncementQueue)
    (patient_id : String) : AnnouncementQueue :=
  { q with queue := q.queue.filter (fun item => item.patient_id != patient_id) }

/-- One mutating operation on the announcement queue, for stating
invariants over arbitrary operation sequences. -/
inductive AnnOp where
  | add (patient_name patient_id : String) (priority : Int)
  | mark (patient_id : String)
  | remove (patient_id : String)

/-- Apply one operation at clock tick `t`. -/
def applyAnnOp (t : Nat) (q : AnnouncementQueue) : AnnOp → AnnouncementQueue
  | .add patient_name patient_id priority => q.add_to_queue patient_name patient_id priority t
  | .mark patient_id => q.mark_announced patient_id t
  | .remove patient_id => q.remove_from_queue patient_id

/-- Run a sequence of operations starting at clock tick `t` (one tick
per operation). -/
def runAnnOpsFrom (t : Nat) (q : AnnouncementQueue) : List AnnOp → AnnouncementQueue
  | [] => q
  | op :: ops => runAnnOpsFrom (t + 1) (applyAnnOp t q op) ops

/-- Run a sequence of operations on the initially-empty queue
(`AnnouncementQueue.__init__`). -/
def runAnnOps (ops : List AnnOp) : AnnouncementQueue :=
  runAnnOpsFrom 0 ⟨[], 0⟩ ops

/-- Order in which the announcement queue keeps its items: `a` may sit
before `b` iff `a` has strictly higher priority, or equal priority and
an earlier insertion tick (FIFO among equal priorities). -/
def priorityFifo (a b : AnnItem) : Prop :=
  b.priority < a.priority ∨ (b.priority = a.priority ∧ a.added_at < b.added_at)

end HospitalManager

namespace HospitalManager

/-- C10: for every OPD visit whose `visit_date` is non-empty,
`mark_completed` changes only the `status` field (to `"Completed"`) and
leaves every other field — `visit_id`, `patient_id`, `doctor_name`,
`visit_date`, `symptoms`, `diagnosis`, `prescription`, `lab_tests`,
`follow_up_date`, `notes`, `vital_signs` — unchanged, for any value of
the clock. -/
theorem mark_completed_frame (now : String) (v : OPDVisit) (h : v.visit_date ≠ "") :
    v.mark_completed now = { v with status := "Completed" } := by
  simp [OPDVisit.mark_completed, h]

/-- Boolean string equality is symmetric. -/
theorem beq_comm_string (x y : String) : (x == y) = (y == x) := by
  rw [Bool.eq_iff_iff, beq_iff_eq, beq_iff_eq]
  exact eq_comm

/-- The booked-slot list computed by `get_available_slots` contains a
slot time exactly when some appointment in the input blocks it. -/
theorem booked_contains (doctor_name date slot : String) (l : List Appointment) :
    ((l.filter (Appointment.blocks doctor_name date)).map
        (fun a => a.appointment_time)).contains slot
      = l.any (fun a =>
          Appointment.blocks doctor_name date a && a.appointment_time == slot) := by
  induction l with
  | nil => rfl
  | cons a t ih =>
    by_cases h : Appointment.blocks doctor_name date a
    · simp only [List.filter_cons, h, if_pos, List.map_cons, List.contains_cons,
        List.any_cons, ← ih]
      rw [beq_comm_string slot a.appointment_time]
      simp
    · simp only [List.filter_cons, List.any_cons, ← ih]
      simp [h]

/-- C2: `get_available_slots` returns the empty sequence when the doctor
name matches no `DoctorProfile`; otherwise it returns the doctor's fixed
slot template filtered down to exactly the slot times not blocked by any
appointment with the same doctor name, same date, and status
`Scheduled` or `Completed` (so `Cancelled` and `No-Show` appointments
remove nothing), as a sublist of the template (template order
preserved). -/
theorem get_available_slots_spec (doctor_name date : String)
    (existing_appointments : List Appointment) :
    (DEFAULT_DOCTORS.find? (fun d => d.name == doctor_name) = none →
      get_available_slots doctor_name date existing_appointments = []) ∧
    ∀ d, DEFAULT_DOCTORS.find? (fun d => d.name == doctor_name) = some d →
      get_available_slots doctor_name date existing_appointments =
        d.slots.filter (fun slot => !existing_appointments.any (fun a =>
          Appointment.blocks doctor_name date a && a.appointment_time == slot)) ∧
      (get_available_slots doctor_name date existing_appointments).Sublist d.slots ∧
      ∀ slot, slot ∈ get_available_slots doctor_name date existing_appointments ↔
        slot ∈ d.slots ∧ ¬ ∃ a ∈ existing_appointments, a.doctor_name = doctor_name ∧
          a.appointment_date = date ∧ (a.status = "Scheduled" ∨ a.status = "Completed") ∧
          a.appointment_time = slot := by
  constructor
  · intro h
    simp [get_available_slots, h]
  · intro d hd
    have hmain : get_available_slots doctor_name date existing_appointments =
        d.slots.filter (fun slot => !existing_appointments.any (fun a =>
          Appointment.blocks doctor_name date a && a.appointment_time == slot)) := by
      unfold get_available_slots
      rw [hd]
      by_cases hempty : d.slots.isEmpty
      · rw [List.isEmpty_iff] at hempty
        simp [hempty]
      · simp only [hempty, Bool.false_eq_true, if_false]
        exact List.filter_congr fun slot _ => by
          rw [booked_contains]
    refine ⟨hmain, hmain ▸ List.filter_sublist _, fun slot => ?_⟩
    rw [hmain]
    simp [List.mem_filter, Appointment.blocks, List.any_eq_true, beq_iff_eq]

/-- Witness for `get_available_slots_spec`: the spec's own example — Dr.
Smith with one `Scheduled` appointment at 10:00 on the date loses
exactly the 10:00 slot, in template order. -/
theorem get_available_slots_spec_witness :
    get_available_slots "Dr. Smith" "2026-01-05"
        [⟨"A1", "P1", "Dr. Smith", "General Medicine", "2026-01-05", "10:00",
          "Scheduled", "", "2026-01-01 08:00:00"⟩]
      = ["09:00", "11:00", "14:00", "15:00", "16:00"] := by
  have h := ((get_available_slots_spec "Dr. Smith" "2026-01-05"
      [⟨"A1", "P1", "Dr. Smith", "General Medicine", "2026-01-05", "10:00",
        "Scheduled", "", "2026-01-01 08:00:00"⟩]).2
    ⟨"Dr. Smith", "General Medicine",
      ["09:00", "10:00", "11:00", "14:00", "15:00", "16:00"]⟩ (by decide)).1
  rw [h]
  decide

/-- C5: `set_announcement_interval` stores exactly `max 10 s` for every
integer `s` — values below the floor of 10 are clamped to 10 and values
of at least 10 are stored unchanged — and the stored value is what
`get_announcement_status` reports. -/
theorem set_interval_clamped (st : AnnouncementSystemState) (s : Int) :
    (get_announcement_status (set_announcement_interval st s)).announcement_interval
        = max 10 s ∧
    (s < 10 →
      (get_announcement_status (set_announcement_interval st s)).announcement_interval
        = 10) ∧
    (10 ≤ s →
      (get_announcement_status (set_announcement_interval st s)).announcement_interval
        = s) := by
  refine ⟨rfl, fun h => ?_, fun h => ?_⟩
  · show max 10 s = 10
    exact max_eq_left (le_of_lt h)
  · show max 10 s = s
    exact max_eq_right h

/-- Witness for `set_interval_clamped`: the spec's own examples,
`setInterval 5` yields 10 and `setInterval 45` yields 45. -/
theorem set_interval_clamped_witness :
    (get_announcement_status
        (set_announcement_interval ⟨false, false, 30, [], []⟩ 5)).announcement_interval
      = 10 ∧
    (get_announcement_status
        (set_announcement_interval ⟨false, false, 30, [], []⟩ 45)).announcement_interval
      = 45 :=
  ⟨(set_interval_clamped ⟨false, false, 30, [], []⟩ 5).2.1 (by decide),
   (set_interval_clamped ⟨false, false, 30, [], []⟩ 45).2.2 (by decide)⟩

/-- An index returned by `listIndex` always points at a member. -/
theorem mem_of_listIndex (x : String) (l : List String) (j : Nat)
    (h : listIndex x l = some j) : x ∈ l := by
  induction l generalizing j with
  | nil => simp [listIndex] at h
  | cons y ys ih =>
    by_cases hy : (y == x) = true
    · exact (beq_iff_eq.mp hy) ▸ List.mem_cons_self y ys
    · simp only [listIndex, hy, Bool.false_eq_true, if_false, Option.map_eq_some'] at h
      obtain ⟨j', hj', _⟩ := h
      exact List.mem_cons_of_mem y (ih j' hj')

/-- Appending to the waiting list does not move an existing member. -/
theorem listIndex_append_of_mem (p : String) (l l' : List String) (h : p ∈ l) :
    listIndex p (l ++ l') = listIndex p l := by
  induction l with
  | nil => cases h
  | cons y ys ih =>
    by_cases hy : (y == p) = true
    · simp [listIndex, hy]
    · have hmem : p ∈ ys := by
        rcases List.mem_cons.mp h with h1 | h1
        · exact absurd (beq_iff_eq.mpr h1.symm) hy
        · exact h1
      simp [listIndex, hy, ih hmem]

/-- Erasing an element that sits strictly behind `p` leaves the index of
the first occurrence of `p` unchanged. -/
theorem listIndex_erase_of_lt (p x : String) (l : List String) (i j : Nat)
    (hp : listIndex p l = some i) (hx : listIndex x l = some j) (hij : i < j) :
    listIndex p (l.erase x) = some i := by
  induction l generalizing i j with
  | nil => simp [listIndex] at hp
  | cons a t ih =>
    rw [List.erase_cons]
    by_cases hax : (a == x) = true
    · rw [listIndex, if_pos hax] at hx
      injection hx with h0
      subst h0
      exact absurd hij (Nat.not_lt_zero i)
    · rw [if_neg hax]
      by_cases hap : (a == p) = true
      · rw [listIndex, if_pos hap] at hp
        rw [listIndex, if_pos hap]
        exact hp
      · rw [listIndex, if_neg hap, Option.map_eq_some'] at hp
        obtain ⟨i', hi', hi⟩ := hp
        rw [listIndex, if_neg hax, Option.map_eq_some'] at hx
        obtain ⟨j', hj', hj⟩ := hx
        rw [listIndex, if_neg hap, Option.map_eq_some']
        exact ⟨i', ih i' j' hi' hj' (by omega), hi⟩

/-- C6 (amended): `add_patient` is idempotent — a second enqueue of `p`
is a no-op, the waiting list holds `p` exactly once afterwards (for
every state in which `p` occurs at most once, which covers all states
reachable by the queue's operations), and `p`'s 1-based position is
unchanged by the second enqueue; the position is stable under enqueues
of any other patient (appends can never overtake `p`) and under
dequeues of patients positioned behind `p`; and `remove_patient` of an
absent id is a silent no-op. -/
theorem opd_queue_enqueue_idempotent (q : OPDQueue) (p x : String) :
    (q.add_patient p).add_patient p = q.add_patient p ∧
    (q.queue.count p ≤ 1 →
      ((q.add_patient p).add_patient p).queue.count p = 1) ∧
    ((q.add_patient p).add_patient p).get_queue_position p
      = (q.add_patient p).get_queue_position p ∧
    (p ∈ q.queue →
      (q.add_patient x).get_queue_position p = q.get_queue_position p) ∧
    (x ∉ q.queue → q.remove_patient x = q) ∧
    (∀ i j : Nat, listIndex p q.queue = some i → listIndex x q.queue = some j →
      i < j →
      (q.remove_patient x).get_queue_position p = q.get_queue_position p) := by
  have hidem : (q.add_patient p).add_patient p = q.add_patient p := by
    by_cases hp : p ∈ q.queue
    · simp [OPDQueue.add_patient, hp]
    · simp [OPDQueue.add_patient, hp]
  refine ⟨hidem, fun hc => ?_, by rw [hidem], fun hp => ?_, fun hx => ?_,
    fun i j hpi hxj hij => ?_⟩
  · rw [hidem]
    by_cases hp : p ∈ q.queue
    · have h1 : 0 < q.queue.count p := List.count_pos_iff.mpr hp
      simp only [OPDQueue.add_patient, hp, if_pos]
      omega
    · have h0 : q.queue.count p = 0 := List.count_eq_zero.mpr hp
      simp [OPDQueue.add_patient, hp, List.count_append, h0]
  · by_cases hx : x ∈ q.queue
    · simp [OPDQueue.add_patient, hx]
    · simp [OPDQueue.add_patient, hx, OPDQueue.get_queue_position,
        listIndex_append_of_mem p q.queue [x] hp]
  · simp [OPDQueue.remove_patient, hx]
  · have hx : x ∈ q.queue := mem_of_listIndex x q.queue j hxj
    simp only [OPDQueue.remove_patient, hx, if_pos, OPDQueue.get_queue_position,
      listIndex_erase_of_lt p x q.queue i j hpi hxj hij, hpi]

/-- Witness for `opd_queue_enqueue_idempotent` on the queue
`["a", "p", "b"]`. -/
theorem opd_queue_enqueue_idempotent_witness :
    (OPDQueue.add_patient (OPDQueue.add_patient ⟨["a", "p", "b"], []⟩ "p") "p"
      = OPDQueue.add_patient ⟨["a", "p", "b"], []⟩ "p") ∧
    ((OPDQueue.add_patient (OPDQueue.add_patient ⟨["a", "p", "b"], []⟩ "p") "p").queue.count "p"
      = 1) ∧
    ((OPDQueue.add_patient ⟨["a", "p", "b"], []⟩ "b").get_queue_position "p"
      = OPDQueue.get_queue_position ⟨["a", "p", "b"], []⟩ "p") ∧
    (OPDQueue.remove_patient ⟨["a", "p", "b"], []⟩ "z" = ⟨["a", "p", "b"], []⟩) ∧
    ((OPDQueue.remove_patient ⟨["a", "p", "b"], []⟩ "b").get_queue_position "p"
      = OPDQueue.get_queue_position ⟨["a", "p", "b"], []⟩ "p") := by
  have h1 := opd_queue_enqueue_idempotent ⟨["a", "p", "b"], []⟩ "p" "z"
  have h2 := opd_queue_enqueue_idempotent ⟨["a", "p", "b"], []⟩ "p" "b"
  exact ⟨h1.1, h1.2.1 (by decide), h2.2.2.2.1 (by decide),
    h1.2.2.2.2.1 (by decide), h2.2.2.2.2.2 1 2 (by decide) (by decide) (by decide)⟩

/-- C6 counterexample: with waiting queue `["a", "p"]` (built by
enqueues, including a duplicate enqueue of `"p"`), `position "p"` is 2;
dequeuing `"a"` — which is neither an enqueue ahead of `"p"` nor a
dequeue of `"p"` — changes `position "p"` to 1, so the position is not
stable under the two events the claim allows. -/
theorem opd_queue_position_counterexample :
    ((OPDQueue.add_patient (OPDQueue.add_patient (OPDQueue.add_patient
        ⟨[], []⟩ "a") "p") "p").get_queue_position "p" = 2) ∧
    ((OPDQueue.remove_patient (OPDQueue.add_patient (OPDQueue.add_patient
        (OPDQueue.add_patient ⟨[], []⟩ "a") "p") "p") "a").get_queue_position "p"
      = 1) := by
  decide

/-- A completion record that is not an unannounced match for `n` fails
the Boolean test in `mark_announced`. -/
theorem notMatch_cond (n : String) (r : CompletionRecord)
    (h : ¬(r.name = n ∧ r.announced = false)) :
    (r.name == n && !r.announced) = false := by
  by_cases h1 : r.name = n
  · have ha : r.announced = true := by
      cases hb : r.announced
      · exact absurd ⟨h1, hb⟩ h
      · rfl
    simp [ha]
  · simp [h1]

/-- If no record matches, `markAnnouncedFirst` is the identity. -/
theorem markAnnouncedFirst_no_match (n : String) (l : List CompletionRecord)
    (h : ∀ r ∈ l, ¬(r.name = n ∧ r.announced = false)) :
    markAnnouncedFirst n l = l := by
  induction l with
  | nil => rfl
  | cons r rs ih =>
    have hcond := notMatch_cond n r (h r (List.mem_cons_self r rs))
    simp [markAnnouncedFirst, hcond,
      ih fun r' hr' => h r' (List.mem_cons_of_mem r hr')]

/-- `markAnnouncedFirst` flips exactly the first unannounced record
named `n`, leaving every record before and after it untouched. -/
theorem markAnnouncedFirst_first (n : String) (l₁ : List CompletionRecord)
    (r : CompletionRecord) (l₂ : List CompletionRecord)
    (h₁ : ∀ r' ∈ l₁, ¬(r'.name = n ∧ r'.announced = false))
    (hn : r.name = n) (ha : r.announced = false) :
    markAnnouncedFirst n (l₁ ++ r :: l₂) = l₁ ++ { r with announced := true } :: l₂ := by
  induction l₁ with
  | nil => simp [markAnnouncedFirst, hn, ha]
  | cons r' t ih =>
    have hcond := notMatch_cond n r' (h₁ r' (List.mem_cons_self r' t))
    simp [markAnnouncedFirst, hcond,
      ih fun r'' hr'' => h₁ r'' (List.mem_cons_of_mem r' hr'')]

/-- C7: `mark_announced n` sets `announced := true` on exactly the first
record in `completed_today` whose name is `n` and whose flag is still
`false`, leaving all other records — including later unannounced records
with the same name — unchanged; when no such record exists the call is a
no-op. -/
theorem mark_announced_first_match (q : OPDQueue) (n : String) :
    ((∀ r ∈ q.completed_today, ¬(r.name = n ∧ r.announced = false)) →
      q.mark_announced n = q) ∧
    (∀ l₁ r l₂, q.completed_today = l₁ ++ r :: l₂ →
      (∀ r' ∈ l₁, ¬(r'.name = n ∧ r'.announced = false)) →
      r.name = n → r.announced = false →
      q.mark_announced n
        = { q with completed_today := l₁ ++ { r with announced := true } :: l₂ }) := by
  constructor
  · intro h
    simp [OPDQueue.mark_announced, markAnnouncedFirst_no_match n _ h]
  · intro l₁ r l₂ hq h₁ hn ha
    simp [OPDQueue.mark_announced, hq, markAnnouncedFirst_first n l₁ r l₂ h₁ hn ha]

/-- Witness for `mark_announced_first_match` on a record list with three
records named `"Bob"`: only the first unannounced one is flipped. -/
theorem mark_announced_first_match_witness :
    OPDQueue.mark_announced
        ⟨[], [⟨"Bob", "09:00", true⟩, ⟨"Bob", "09:05", false⟩, ⟨"Bob", "09:10", false⟩]⟩
        "Bob"
      = ⟨[], [⟨"Bob", "09:00", true⟩, ⟨"Bob", "09:05", true⟩, ⟨"Bob", "09:10", false⟩]⟩ := by
  have h := (mark_announced_first_match
      ⟨[], [⟨"Bob", "09:00", true⟩, ⟨"Bob", "09:05", false⟩, ⟨"Bob", "09:10", false⟩]⟩
      "Bob").2
    [⟨"Bob", "09:00", true⟩] ⟨"Bob", "09:05", false⟩ [⟨"Bob", "09:10", false⟩]
    rfl (by decide) rfl rfl
  exact h

/-- Membership in the announced-set after a `setAdd`. -/
theorem mem_setAdd_iff (s : List String) (k k' : String) :
    k' ∈ setAdd s k ↔ k' = k ∨ k' ∈ s := by
  by_cases h : k ∈ s
  · simp only [setAdd, h, if_pos]
    constructor
    · exact Or.inr
    · rintro (rfl | hm)
      · exact h
      · exact hm
  · simp [setAdd, h, List.mem_append, or_comm]

/-- `setAdd` keeps existing members. -/
theorem mem_setAdd_of_mem {s : List String} {k k' : String} (h : k' ∈ s) :
    k' ∈ setAdd s k :=
  (mem_setAdd_iff s k k').mpr (Or.inr h)

/-- `setAdd` adds the new key. -/
theorem mem_setAdd_self (s : List String) (k : String) : k ∈ setAdd s k :=
  (mem_setAdd_iff s k k).mpr (Or.inl rfl)

/-- The sink-delivery sequence escapes with an exception exactly when
the display callback raises. -/
theorem deliverToSinks_ok (env : SinkEnv) (m : String) :
    (deliverToSinks env m).ok = env.cb m := by
  unfold deliverToSinks
  by_cases h1 : env.cb m <;> by_cases h2 : env.tts_available = true <;>
    by_cases h3 : env.tts m <;> simp [h1, h2, h3]

/-- When the display callback succeeds and TTS is available, one
delivery shows and attempts to speak exactly the message, whatever the
TTS engine does. -/
theorem deliverToSinks_spokenTried (env : SinkEnv) (m : String)
    (h1 : env.cb m = true) (h2 : env.tts_available = true) :
    (deliverToSinks env m).displayed = [m] ∧
    (deliverToSinks env m).spokenTried = [m] := by
  unfold deliverToSinks
  by_cases h3 : env.tts m <;> simp [h1, h2, h3]

/-- Keys present in the announced-set survive a cycle suffix. -/
theorem processVisits_announced_mono (env : SinkEnv) (patients : List Patient)
    (vs : List OPDVisit) (s : List String) (k : String) (hk : k ∈ s) :
    k ∈ (processVisits env patients vs s).announced := by
  induction vs generalizing s with
  | nil => simpa [processVisits] using hk
  | cons v vs ih =>
    simp only [processVisits]
    by_cases h1 : v.announcementKey ∈ s
    · simp only [h1, if_pos]
      exact ih s hk
    · simp only [h1, if_neg, ite_false]
      cases hp : get_patient_by_id patients v.patient_id with
      | none => exact ih s hk
      | some p =>
        by_cases hok : (announce_patient_completion env p.name v.doctor_name).ok
        · simp only [hok, if_pos]
          exact ih _ (mem_setAdd_of_mem hk)
        · simp only [hok, if_neg, ite_false]
          exact hk

/-- A key already in the announced-set is never announced again during
a cycle suffix. -/
theorem processVisits_countKey_of_mem (env : SinkEnv) (patients : List Patient)
    (vs : List OPDVisit) (s : List String) (k : String) (hk : k ∈ s) :
    countKey (processVisits env patients vs s).events k = 0 := by
  induction vs generalizing s with
  | nil => simp [processVisits, countKey]
  | cons v vs ih =>
    simp only [processVisits]
    by_cases h1 : v.announcementKey ∈ s
    · simp only [h1, if_pos]
      exact ih s hk
    · have hne : (keyOf v.patient_id v.visit_id == k) = false := by
        rw [beq_eq_false_iff_ne]
        intro he
        exact h1 (by simpa [OPDVisit.announcementKey, he] using hk)
      simp only [h1, if_neg, ite_false]
      cases hp : get_patient_by_id patients v.patient_id with
      | none => exact ih s hk
      | some p =>
        by_cases hok : (announce_patient_completion env p.name v.doctor_name).ok
        · simp only [hok, if_pos, countKey, List.countP_cons, hne, if_false]
          exact ih (setAdd s v.announcementKey) (mem_setAdd_of_mem hk)
        · simp [hok, countKey]

/-- Announcement count of a cons. -/
theorem countKey_cons (e : CycleEvent) (evs : List CycleEvent) (k : String) :
    countKey (e :: evs) k
      = countKey evs k + (if keyOf e.patient_id e.visit_id = k then 1 else 0) := by
  by_cases h : keyOf e.patient_id e.visit_id = k <;>
    simp [countKey, List.countP_cons, h]

/-- Announcement count of an append. -/
theorem countKey_append (l1 l2 : List CycleEvent) (k : String) :
    countKey (l1 ++ l2) k = countKey l1 k + countKey l2 k := by
  simp [countKey, List.countP_append]

/-- With a never-failing display callback a poll cycle never aborts. -/
theorem processVisits_ok (env : SinkEnv) (patients : List Patient)
    (vs : List OPDVisit) (s : List String) (hcb : ∀ m, env.cb m = true) :
    (processVisits env patients vs s).ok = true := by
  induction vs generalizing s with
  | nil => rfl
  | cons v vs ih =>
    simp only [processVisits]
    by_cases h1 : v.announcementKey ∈ s
    · simp only [h1, if_pos]
      exact ih s
    · simp only [h1, if_neg, ite_false]
      cases hp : get_patient_by_id patients v.patient_id with
      | none => exact ih s
      | some p =>
        have hok : (announce_patient_completion env p.name v.doctor_name).ok = true := by
          rw [announce_patient_completion, deliverToSinks_ok]
          exact hcb _
        simp [hok]
        exact ih _

/-- With a never-failing display callback and TTS available, the
messages attempted on the speech sink during a cycle are exactly the
messages delivered on the display sink — a TTS failure never blocks the
display sink or the rest of the cycle. -/
theorem processVisits_spokenTried (env : SinkEnv) (patients : List Patient)
    (vs : List OPDVisit) (s : List String) (hcb : ∀ m, env.cb m = true)
    (htts : env.tts_available = true) :
    (processVisits env patients vs s).spokenTried
      = (processVisits env patients vs s).displayed := by
  induction vs generalizing s with
  | nil => rfl
  | cons v vs ih =>
    simp only [processVisits]
    by_cases h1 : v.announcementKey ∈ s
    · simp only [h1, if_pos]
      exact ih s
    · simp only [h1, if_neg, ite_false]
      cases hp : get_patient_by_id patients v.patient_id with
      | none => exact ih s
      | some p =>
        have hok : (deliverToSinks env (completionMessage p.name v.doctor_name)).ok
            = true := by
          rw [deliverToSinks_ok]
          exact hcb _
        have hd := deliverToSinks_spokenTried env
          (completionMessage p.name v.doctor_name) (hcb _) htts
        simp [hok, announce_patient_completion, hd.1, hd.2, ih]

/-- With a never-failing display callback, a cycle suffix containing a
completed visit with key `k` whose patient resolves delivers exactly
one announcement for `k` and leaves `k` in the announced-set. -/
theorem processVisits_announces_once (env : SinkEnv) (patients : List Patient)
    (vs : List OPDVisit) (s : List String) (k : String)
    (hcb : ∀ m, env.cb m = true) (hk : k ∉ s)
    (hex : ∃ v ∈ vs, v.announcementKey = k ∧
      (get_patient_by_id patients v.patient_id).isSome = true) :
    countKey (processVisits env patients vs s).events k = 1 ∧
    k ∈ (processVisits env patients vs s).announced := by
  induction vs generalizing s with
  | nil => simp at hex
  | cons v vs ih =>
    simp only [processVisits]
    by_cases h1 : v.announcementKey ∈ s
    · have hvk : v.announcementKey ≠ k := fun he => hk (he ▸ h1)
      have hex' : ∃ v' ∈ vs, v'.announcementKey = k ∧
          (get_patient_by_id patients v'.patient_id).isSome = true := by
        rcases hex with ⟨v', hv', hkk, hs'⟩
        rcases List.mem_cons.mp hv' with rfl | hm
        · exact absurd hkk hvk
        · exact ⟨v', hm, hkk, hs'⟩
      simp only [h1, if_pos]
      exact ih s hk hex'
    · simp only [h1, if_neg, ite_false]
      cases hp : get_patient_by_id patients v.patient_id with
      | none =>
        have hex' : ∃ v' ∈ vs, v'.announcementKey = k ∧
            (get_patient_by_id patients v'.patient_id).isSome = true := by
          rcases hex with ⟨v', hv', hkk, hs'⟩
          rcases List.mem_cons.mp hv' with rfl | hm
          · rw [hp] at hs'
            simp at hs'
          · exact ⟨v', hm, hkk, hs'⟩
        exact ih s hk hex'
      | some p =>
        have hok : (announce_patient_completion env p.name v.doctor_name).ok = true := by
          rw [announce_patient_completion, deliverToSinks_ok]
          exact hcb _
        by_cases hvk : v.announcementKey = k
        · have hvk' : keyOf v.patient_id v.visit_id = k := hvk
          have hmem : k ∈ setAdd s v.announcementKey := by
            rw [← hvk]
            exact mem_setAdd_self s v.announcementKey
          have h0 := processVisits_countKey_of_mem env patients vs
            (setAdd s v.announcementKey) k hmem
          have hmono := processVisits_announced_mono env patients vs
            (setAdd s v.announcementKey) k hmem
          rw [hvk] at h0
          constructor
          · simp [hok, countKey_cons, h0, hvk, hvk']
          · simp [hok]
            exact hmono
        · have hvk2 : ¬keyOf v.patient_id v.visit_id = k := fun h => hvk h
          have hex' : ∃ v' ∈ vs, v'.announcementKey = k ∧
              (get_patient_by_id patients v'.patient_id).isSome = true := by
            rcases hex with ⟨v', hv', hkk, hs'⟩
            rcases List.mem_cons.mp hv' with rfl | hm
            · exact absurd hkk hvk
            · exact ⟨v', hm, hkk, hs'⟩
          have hk' : k ∉ setAdd s v.announcementKey := by
            rw [mem_setAdd_iff]
            rintro (rfl | hm)
            · exact hvk rfl
            · exact hk hm
          have := ih (setAdd s v.announcementKey) hk' hex'
          constructor
          · simp [hok, countKey_cons, this.1, hvk2]
          · simp [hok]
            exact this.2

/-- If every completed visit carrying key `k` in a cycle suffix has an
unresolvable patient, the cycle delivers nothing for `k` and does not
add `k` to the announced-set. -/
theorem processVisits_no_announce (env : SinkEnv) (patients : List Patient)
    (vs : List OPDVisit) (s : List String) (k : String)
    (hk : k ∉ s)
    (hnone : ∀ v ∈ vs, v.announcementKey = k →
      get_patient_by_id patients v.patient_id = none) :
    countKey (processVisits env patients vs s).events k = 0 ∧
    k ∉ (processVisits env patients vs s).announced := by
  induction vs generalizing s with
  | nil =>
    constructor
    · simp [processVisits, countKey]
    · simpa [processVisits] using hk
  | cons v vs ih =>
    have hnone' : ∀ v' ∈ vs, v'.announcementKey = k →
        get_patient_by_id patients v'.patient_id = none :=
      fun v' hv' => hnone v' (List.mem_cons_of_mem v hv')
    simp only [processVisits]
    by_cases h1 : v.announcementKey ∈ s
    · simp only [h1, if_pos]
      exact ih s hk hnone'
    · simp only [h1, if_neg, ite_false]
      cases hp : get_patient_by_id patients v.patient_id with
      | none => exact ih s hk hnone'
      | some p =>
        have hvk : v.announcementKey ≠ k := by
          intro he
          have := hnone v (List.mem_cons_self v vs) he
          rw [hp] at this
          cases this
        have hk' : k ∉ setAdd s v.announcementKey := by
          rw [mem_setAdd_iff]
          rintro (rfl | hm)
          · exact hvk rfl
          · exact hk hm
        have := ih (setAdd s v.announcementKey) hk' hnone'
        have hvk2 : ¬keyOf v.patient_id v.visit_id = k := fun h => hvk h
        by_cases hok : (announce_patient_completion env p.name v.doctor_name).ok
        · constructor
          · simp [hok, countKey_cons, this.1, hvk2]
          · simp [hok]
            exact this.2
        · constructor
          · simp [hok, countKey]
          · simp [hok]
            exact hk

/-- A key in the announced-set is never re-announced by any later run
of poll cycles, and stays in the set. -/
theorem runCycles_of_mem (env : SinkEnv) (es : List PollEnv) (s : List String)
    (k : String) (hk : k ∈ s) :
    countKey (runCycles env es s).1 k = 0 ∧ k ∈ (runCycles env es s).2 := by
  induction es generalizing s with
  | nil =>
    constructor
    · simp [runCycles, countKey]
    · simpa [runCycles] using hk
  | cons e es ih =>
    have h1 := processVisits_countKey_of_mem env e.patients
      (e.today_visits.filter (fun v => v.status == "Completed")) s k hk
    have h2 := processVisits_announced_mono env e.patients
      (e.today_visits.filter (fun v => v.status == "Completed")) s k hk
    have hrest := ih _ h2
    constructor
    · simp only [runCycles, check_and_announce_completed_patients, countKey_append]
      rw [h1, hrest.1]
    · simp only [runCycles, check_and_announce_completed_patients]
      exact hrest.2

/-- With a never-failing display callback, the first poll cycle that
sees a completed visit with key `k` and a resolvable patient announces
it, and every later cycle skips it: exactly one delivery for `k` across
the whole run. -/
theorem runCycles_once (env : SinkEnv) (es : List PollEnv) (s : List String)
    (k : String) (hcb : ∀ m, env.cb m = true) (hk : k ∉ s)
    (hex : ∃ e ∈ es, ∃ v ∈ e.today_visits, v.status = "Completed" ∧
      v.announcementKey = k ∧
      (get_patient_by_id e.patients v.patient_id).isSome = true) :
    countKey (runCycles env es s).1 k = 1 := by
  induction es generalizing s with
  | nil => simp at hex
  | cons e es ih =>
    by_cases hhead : ∃ v ∈ e.today_visits.filter (fun v => v.status == "Completed"),
        v.announcementKey = k ∧
        (get_patient_by_id e.patients v.patient_id).isSome = true
    · have h1 := processVisits_announces_once env e.patients
        (e.today_visits.filter (fun v => v.status == "Completed")) s k hcb hk hhead
      have h2 := runCycles_of_mem env es _ k h1.2
      simp only [runCycles, check_and_announce_completed_patients, countKey_append]
      rw [h1.1, h2.1]
    · have hnone : ∀ v ∈ e.today_visits.filter (fun v => v.status == "Completed"),
          v.announcementKey = k → get_patient_by_id e.patients v.patient_id = none := by
        intro v hv hk'
        cases h2 : get_patient_by_id e.patients v.patient_id with
        | none => rfl
        | some p => exact absurd ⟨v, hv, hk', by simp [h2]⟩ hhead
      have h1 := processVisits_no_announce env e.patients
        (e.today_visits.filter (fun v => v.status == "Completed")) s k hk hnone
      have hex' : ∃ e' ∈ es, ∃ v ∈ e'.today_visits, v.status = "Completed" ∧
          v.announcementKey = k ∧
          (get_patient_by_id e'.patients v.patient_id).isSome = true := by
        rcases hex with ⟨e', he', v, hv, hst, hkk, hs'⟩
        rcases List.mem_cons.mp he' with rfl | hm
        · exact absurd ⟨v, List.mem_filter.mpr ⟨hv, by simp [hst]⟩, hkk, hs'⟩ hhead
        · exact ⟨e', hm, v, hv, hst, hkk, hs'⟩
      have hrest := ih _ h1.2 hex'
      simp only [runCycles, check_and_announce_completed_patients, countKey_append]
      rw [h1.1, hrest]

/-- Every delivered poll-cycle announcement originates from a visit in
the processed list. -/
theorem processVisits_events_origin (env : SinkEnv) (patients : List Patient)
    (vs : List OPDVisit) (s : List String) :
    ∀ ev ∈ (processVisits env patients vs s).events,
      ∃ v ∈ vs, ev.patient_id = v.patient_id ∧ ev.visit_id = v.visit_id := by
  induction vs generalizing s with
  | nil =>
    intro ev hev
    simp [processVisits] at hev
  | cons v vs ih =>
    intro ev hev
    simp only [processVisits] at hev
    by_cases h1 : v.announcementKey ∈ s
    · simp only [h1, if_pos] at hev
      obtain ⟨v', hv', h⟩ := ih s ev hev
      exact ⟨v', List.mem_cons_of_mem v hv', h⟩
    · simp only [h1, if_neg, ite_false] at hev
      cases hp : get_patient_by_id patients v.patient_id with
      | none =>
        rw [hp] at hev
        obtain ⟨v', hv', h⟩ := ih s ev hev
        exact ⟨v', List.mem_cons_of_mem v hv', h⟩
      | some p =>
        rw [hp] at hev
        by_cases hok : (announce_patient_completion env p.name v.doctor_name).ok
        · simp only [hok, if_pos, List.mem_cons] at hev
          rcases hev with rfl | hev
          · exact ⟨v, List.mem_cons_self v vs, rfl, rfl⟩
          · obtain ⟨v', hv', h⟩ := ih _ ev hev
            exact ⟨v', List.mem_cons_of_mem v hv', h⟩
        · simp [hok] at hev

/-- Every announcement delivered across a run of poll cycles originates
from a visit in some cycle's record-store snapshot. -/
theorem runCycles_events_origin (env : SinkEnv) (es : List PollEnv)
    (s : List String) :
    ∀ ev ∈ (runCycles env es s).1, ∃ e ∈ es, ∃ v ∈ e.today_visits,
      ev.patient_id = v.patient_id ∧ ev.visit_id = v.visit_id := by
  induction es generalizing s with
  | nil =>
    intro ev hev
    simp [runCycles] at hev
  | cons e es ih =>
    intro ev hev
    simp only [runCycles, List.mem_append] at hev
    rcases hev with hev | hev
    · obtain ⟨v, hv, h⟩ := processVisits_events_origin env e.patients _ s ev hev
      exact ⟨e, List.mem_cons_self e es, v, (List.mem_filter.mp hv).1, h⟩
    · obtain ⟨e', he', v, hv, h⟩ := ih _ ev hev
      exact ⟨e', List.mem_cons_of_mem e he', v, hv, h⟩

/-- When no delivered announcement's ids collide onto the pair's key
string, counting by pair equals counting by key string. -/
theorem countPair_eq_countKey (evs : List CycleEvent) (pid vid : String)
    (h : ∀ ev ∈ evs, keyOf ev.patient_id ev.visit_id = keyOf pid vid →
      ev.patient_id = pid ∧ ev.visit_id = vid) :
    countPair evs pid vid = countKey evs (keyOf pid vid) := by
  unfold countPair countKey
  apply List.countP_congr
  intro ev hev
  by_cases hp : ev.patient_id = pid ∧ ev.visit_id = vid
  · have h1 : (ev.patient_id == pid && ev.visit_id == vid) = true := by
      rw [Bool.and_eq_true, beq_iff_eq, beq_iff_eq]
      exact hp
    have h2 : (keyOf ev.patient_id ev.visit_id == keyOf pid vid) = true := by
      rw [beq_iff_eq, hp.1, hp.2]
    rw [h1, h2]
  · have h1 : ¬((ev.patient_id == pid && ev.visit_id == vid) = true) := by
      rw [Bool.and_eq_true, beq_iff_eq, beq_iff_eq]
      exact hp
    have h2 : ¬((keyOf ev.patient_id ev.visit_id == keyOf pid vid) = true) := by
      rw [beq_iff_eq]
      intro hk
      exact hp (h ev hev hk)
    rw [Bool.eq_false_iff.mpr h1, Bool.eq_false_iff.mpr h2]

/-- C1 (amended): with never-failing sinks, across any run of poll
cycles starting from a dedup set not containing the pair's key string,
a visit for `(pid, vid)` that some cycle sees with status `Completed`
and a resolvable patient is announced exactly once — the first such
cycle delivers it and every later cycle skips it — provided no visit
with a *different* id pair collides onto the same key string
`pid ++ "_" ++ vid` (the code keys its set by that string, not by the
pair); and after `clear_announced_patients` empties the dedup set, a
further run under the same provisos announces the pair exactly once
again. -/
theorem announcement_dedup_once (env : SinkEnv) (pid vid : String)
    (es1 es2 : List PollEnv) (s0 : List String) (st : AnnouncementSystemState)
    (hcb : ∀ m, env.cb m = true)
    (h0 : keyOf pid vid ∉ s0)
    (hnc1 : ∀ e ∈ es1, ∀ v ∈ e.today_visits,
      v.announcementKey = keyOf pid vid → v.patient_id = pid ∧ v.visit_id = vid)
    (hnc2 : ∀ e ∈ es2, ∀ v ∈ e.today_visits,
      v.announcementKey = keyOf pid vid → v.patient_id = pid ∧ v.visit_id = vid)
    (hex1 : ∃ e ∈ es1, ∃ v ∈ e.today_visits, v.status = "Completed" ∧
      v.patient_id = pid ∧ v.visit_id = vid ∧
      (get_patient_by_id e.patients v.patient_id).isSome = true)
    (hex2 : ∃ e ∈ es2, ∃ v ∈ e.today_visits, v.status = "Completed" ∧
      v.patient_id = pid ∧ v.visit_id = vid ∧
      (get_patient_by_id e.patients v.patient_id).isSome = true) :
    countPair (runCycles env es1 s0).1 pid vid = 1 ∧
    countPair (runCycles env es2
      (clear_announced_patients st).announced_patients).1 pid vid = 1 := by
  have main : ∀ (es : List PollEnv) (s : List String), keyOf pid vid ∉ s →
      (∀ e ∈ es, ∀ v ∈ e.today_visits,
        v.announcementKey = keyOf pid vid → v.patient_id = pid ∧ v.visit_id = vid) →
      (∃ e ∈ es, ∃ v ∈ e.today_visits, v.status = "Completed" ∧
        v.patient_id = pid ∧ v.visit_id = vid ∧
        (get_patient_by_id e.patients v.patient_id).isSome = true) →
      countPair (runCycles env es s).1 pid vid = 1 := by
    intro es s hs hnc hex
    have hexk : ∃ e ∈ es, ∃ v ∈ e.today_visits, v.status = "Completed" ∧
        v.announcementKey = keyOf pid vid ∧
        (get_patient_by_id e.patients v.patient_id).isSome = true := by
      rcases hex with ⟨e, he, v, hv, hst, hpid, hvid, hres⟩
      refine ⟨e, he, v, hv, hst, ?_, hres⟩
      show keyOf v.patient_id v.visit_id = keyOf pid vid
      rw [hpid, hvid]
    have hkey := runCycles_once env es s (keyOf pid vid) hcb hs hexk
    have hbridge := countPair_eq_countKey (runCycles env es s).1 pid vid ?_
    · rw [hbridge, hkey]
    · intro ev hev hk
      obtain ⟨e, he, v, hv, h1, h2⟩ := runCycles_events_origin env es s ev hev
      rw [h1, h2] at hk
      have := hnc e he v hv hk
      rw [h1, h2]
      exact this
  refine ⟨main es1 s0 h0 hnc1 hex1, main es2 _ ?_ hnc2 hex2⟩
  simp [clear_announced_patients]

/-- Witness for `announcement_dedup_once`: one completed, resolvable
visit, two runs of one cycle each around a `clear_announced_patients`;
each run delivers the announcement exactly once. -/
theorem announcement_dedup_once_witness :
    countPair (runCycles ⟨fun _ => true, false, fun _ => true⟩
      [⟨[⟨"V1", "P1", "Dr. Smith", "2026-01-05 10:00:00", "", "", "", "", "", "",
          "Completed", []⟩], [⟨"P1", "Alice"⟩]⟩] []).1 "P1" "V1" = 1 ∧
    countPair (runCycles ⟨fun _ => true, false, fun _ => true⟩
      [⟨[⟨"V1", "P1", "Dr. Smith", "2026-01-05 10:00:00", "", "", "", "", "", "",
          "Completed", []⟩], [⟨"P1", "Alice"⟩]⟩]
      (clear_announced_patients ⟨false, false, 30, ["P1_V1"], []⟩).announced_patients).1
      "P1" "V1" = 1 :=
  announcement_dedup_once ⟨fun _ => true, false, fun _ => true⟩ "P1" "V1"
    [⟨[⟨"V1", "P1", "Dr. Smith", "2026-01-05 10:00:00", "", "", "", "", "", "",
        "Completed", []⟩], [⟨"P1", "Alice"⟩]⟩]
    [⟨[⟨"V1", "P1", "Dr. Smith", "2026-01-05 10:00:00", "", "", "", "", "", "",
        "Completed", []⟩], [⟨"P1", "Alice"⟩]⟩]
    [] ⟨false, false, 30, ["P1_V1"], []⟩ (fun _ => rfl)
    (by decide) (by decide) (by decide) (by decide) (by decide)

/-- C1 counterexample: visit `"1_v"` of patient `"p"` is completed
today, its patient resolves, the initial dedup set is empty and the
sinks never fail, yet across two poll cycles the engine delivers zero
announcements for the pair `("p", "1_v")` — the other visit's pair
`("p_1", "v")` concatenates to the same key string `"p_1_v"` and is
announced first, after which the key blocks the second visit forever. -/
theorem announcement_dedup_counterexample :
    (get_patient_by_id [⟨"p_1", "Alice"⟩, ⟨"p", "Bob"⟩] "p").isSome = true ∧
    countPair (runCycles ⟨fun _ => true, false, fun _ => true⟩
      [⟨[⟨"v", "p_1", "Dr. Smith", "2026-01-05 10:00:00", "", "", "", "", "", "",
          "Completed", []⟩,
         ⟨"1_v", "p", "Dr. Smith", "2026-01-05 10:05:00", "", "", "", "", "", "",
          "Completed", []⟩],
        [⟨"p_1", "Alice"⟩, ⟨"p", "Bob"⟩]⟩,
       ⟨[⟨"v", "p_1", "Dr. Smith", "2026-01-05 10:00:00", "", "", "", "", "", "",
          "Completed", []⟩,
         ⟨"1_v", "p", "Dr. Smith", "2026-01-05 10:05:00", "", "", "", "", "", "",
          "Completed", []⟩],
        [⟨"p_1", "Alice"⟩, ⟨"p", "Bob"⟩]⟩] []).1 "p" "1_v" = 0 := by
  decide

/-- C3 (amended): a *speech-sink* failure during delivery blocks
nothing — with a never-failing display callback and TTS available, the
visit's key is added to the announced-set, the announcement is
delivered once, every displayed message was also attempted on the
speech sink (whatever the TTS engine does, including always raising),
and no later run of cycles re-announces the key.  A *display-callback*
failure, by contrast, aborts the cycle before the speech sink is
attempted and before the key is marked (see the counterexample). -/
theorem speech_sink_failure_still_marks (env : SinkEnv)
    (pid vid : String) (today_visits : List OPDVisit) (patients : List Patient)
    (s : List String) (es : List PollEnv)
    (hcb : ∀ m, env.cb m = true) (htts : env.tts_available = true)
    (h0 : keyOf pid vid ∉ s)
    (hex : ∃ v ∈ today_visits, v.status = "Completed" ∧ v.patient_id = pid ∧
      v.visit_id = vid ∧ (get_patient_by_id patients v.patient_id).isSome = true) :
    keyOf pid vid
      ∈ (check_and_announce_completed_patients env today_visits patients s).announced ∧
    countKey (check_and_announce_completed_patients env today_visits patients s).events
      (keyOf pid vid) = 1 ∧
    (check_and_announce_completed_patients env today_visits patients s).spokenTried
      = (check_and_announce_completed_patients env today_visits patients s).displayed ∧
    countKey (runCycles env es
      (check_and_announce_completed_patients env today_visits patients s).announced).1
      (keyOf pid vid) = 0 := by
  have hexf : ∃ v ∈ today_visits.filter (fun v => v.status == "Completed"),
      v.announcementKey = keyOf pid vid ∧
      (get_patient_by_id patients v.patient_id).isSome = true := by
    rcases hex with ⟨v, hv, hst, hpid, hvid, hres⟩
    refine ⟨v, List.mem_filter.mpr ⟨hv, by simp [hst]⟩, ?_, hres⟩
    show keyOf v.patient_id v.visit_id = keyOf pid vid
    rw [hpid, hvid]
  have h1 := processVisits_announces_once env patients
    (today_visits.filter (fun v => v.status == "Completed")) s (keyOf pid vid)
    hcb h0 hexf
  have h2 := processVisits_spokenTried env patients
    (today_visits.filter (fun v => v.status == "Completed")) s hcb htts
  have h3 := runCycles_of_mem env es _ (keyOf pid vid) h1.2
  exact ⟨h1.2, h1.1, h2, h3.1⟩

/-- Witness for `speech_sink_failure_still_marks` with a TTS engine
that raises on every message. -/
theorem speech_sink_failure_still_marks_witness :
    keyOf "P1" "V1"
      ∈ (check_and_announce_completed_patients ⟨fun _ => true, true, fun _ => false⟩
        [⟨"V1", "P1", "Dr. Smith", "2026-01-05 10:00:00", "", "", "", "", "", "",
          "Completed", []⟩] [⟨"P1", "Alice"⟩] []).announced ∧
    countKey (check_and_announce_completed_patients ⟨fun _ => true, true, fun _ => false⟩
        [⟨"V1", "P1", "Dr. Smith", "2026-01-05 10:00:00", "", "", "", "", "", "",
          "Completed", []⟩] [⟨"P1", "Alice"⟩] []).events (keyOf "P1" "V1") = 1 ∧
    (check_and_announce_completed_patients ⟨fun _ => true, true, fun _ => false⟩
        [⟨"V1", "P1", "Dr. Smith", "2026-01-05 10:00:00", "", "", "", "", "", "",
          "Completed", []⟩] [⟨"P1", "Alice"⟩] []).spokenTried
      = (check_and_announce_completed_patients ⟨fun _ => true, true, fun _ => false⟩
        [⟨"V1", "P1", "Dr. Smith", "2026-01-05 10:00:00", "", "", "", "", "", "",
          "Completed", []⟩] [⟨"P1", "Alice"⟩] []).displayed ∧
    countKey (runCycles ⟨fun _ => true, true, fun _ => false⟩
      [⟨[⟨"V1", "P1", "Dr. Smith", "2026-01-05 10:00:00", "", "", "", "", "", "",
          "Completed", []⟩], [⟨"P1", "Alice"⟩]⟩]
      (check_and_announce_completed_patients ⟨fun _ => true, true, fun _ => false⟩
        [⟨"V1", "P1", "Dr. Smith", "2026-01-05 10:00:00", "", "", "", "", "", "",
          "Completed", []⟩] [⟨"P1", "Alice"⟩] []).announced).1 (keyOf "P1" "V1") = 0 :=
  speech_sink_failure_still_marks ⟨fun _ => true, true, fun _ => false⟩ "P1" "V1"
    [⟨"V1", "P1", "Dr. Smith", "2026-01-05 10:00:00", "", "", "", "", "", "",
      "Completed", []⟩] [⟨"P1", "Alice"⟩] []
    [⟨[⟨"V1", "P1", "Dr. Smith", "2026-01-05 10:00:00", "", "", "", "", "", "",
        "Completed", []⟩], [⟨"P1", "Alice"⟩]⟩]
    (fun _ => rfl) rfl (by decide) (by decide)

/-- C3 counterexample: the display callback raises on every message
while TTS is available and healthy; for a single completed, resolvable
visit the cycle then leaves the dedup key unmarked, never attempts the
speech sink, and aborts — the claim's "key is still marked announced
and the other sink is still attempted" fails for a display-sink
failure. -/
theorem sink_failure_counterexample :
    (check_and_announce_completed_patients ⟨fun _ => false, true, fun _ => true⟩
      [⟨"V1", "P1", "Dr. Smith", "2026-01-05 10:00:00", "", "", "", "", "", "",
        "Completed", []⟩] [⟨"P1", "Alice"⟩] []).announced = [] ∧
    (check_and_announce_completed_patients ⟨fun _ => false, true, fun _ => true⟩
      [⟨"V1", "P1", "Dr. Smith", "2026-01-05 10:00:00", "", "", "", "", "", "",
        "Completed", []⟩] [⟨"P1", "Alice"⟩] []).spokenTried = [] ∧
    (check_and_announce_completed_patients ⟨fun _ => false, true, fun _ => true⟩
      [⟨"V1", "P1", "Dr. Smith", "2026-01-05 10:00:00", "", "", "", "", "", "",
        "Completed", []⟩] [⟨"P1", "Alice"⟩] []).ok = false := by
  decide

/-- C4: a completed visit whose patient id does not resolve is skipped
for the cycle — no announcement for its key, the cycle finishes without
error, and the key is not added to the announced-set — so a later cycle
in which the lookup succeeds announces it (exactly once).  The
side condition `hnc` rules out a different visit adding the same
concatenated key string during the first cycle. -/
theorem unresolved_patient_skip_retry (env : SinkEnv) (pid vid : String)
    (e1 e2 : PollEnv) (s : List String)
    (hcb : ∀ m, env.cb m = true)
    (h0 : keyOf pid vid ∉ s)
    (hv1 : ∃ v ∈ e1.today_visits, v.status = "Completed" ∧ v.patient_id = pid ∧
      v.visit_id = vid)
    (hnone : get_patient_by_id e1.patients pid = none)
    (hnc : ∀ v ∈ e1.today_visits, v.announcementKey = keyOf pid vid →
      v.patient_id = pid)
    (hex2 : ∃ v ∈ e2.today_visits, v.status = "Completed" ∧ v.patient_id = pid ∧
      v.visit_id = vid ∧ (get_patient_by_id e2.patients v.patient_id).isSome = true) :
    countKey (check_and_announce_completed_patients env e1.today_visits e1.patients s).events
      (keyOf pid vid) = 0 ∧
    (check_and_announce_completed_patients env e1.today_visits e1.patients s).ok = true ∧
    keyOf pid vid
      ∉ (check_and_announce_completed_patients env e1.today_visits e1.patients s).announced ∧
    countKey (check_and_announce_completed_patients env e2.today_visits e2.patients
      (check_and_announce_completed_patients env e1.today_visits e1.patients s).announced).events
      (keyOf pid vid) = 1 := by
  have hnonef : ∀ v ∈ e1.today_visits.filter (fun v => v.status == "Completed"),
      v.announcementKey = keyOf pid vid →
      get_patient_by_id e1.patients v.patient_id = none := by
    intro v hv hk
    rw [hnc v (List.mem_filter.mp hv).1 hk]
    exact hnone
  have h1 := processVisits_no_announce env e1.patients
    (e1.today_visits.filter (fun v => v.status == "Completed")) s (keyOf pid vid)
    h0 hnonef
  have hok := processVisits_ok env e1.patients
    (e1.today_visits.filter (fun v => v.status == "Completed")) s hcb
  have hexf : ∃ v ∈ e2.today_visits.filter (fun v => v.status == "Completed"),
      v.announcementKey = keyOf pid vid ∧
      (get_patient_by_id e2.patients v.patient_id).isSome = true := by
    rcases hex2 with ⟨v, hv, hst, hpid, hvid, hres⟩
    refine ⟨v, List.mem_filter.mpr ⟨hv, by simp [hst]⟩, ?_, hres⟩
    show keyOf v.patient_id v.visit_id = keyOf pid vid
    rw [hpid, hvid]
  have h2 := processVisits_announces_once env e2.patients
    (e2.today_visits.filter (fun v => v.status == "Completed"))
    (check_and_announce_completed_patients env e1.today_visits e1.patients s).announced
    (keyOf pid vid) hcb h1.2 hexf
  exact ⟨h1.1, hok, h1.2, h2.1⟩

/-- Witness for `unresolved_patient_skip_retry`: in the first cycle the
patient store is empty, in the second the patient resolves. -/
theorem unresolved_patient_skip_retry_witness :
    countKey (check_and_announce_completed_patients ⟨fun _ => true, false, fun _ => true⟩
      [⟨"V1", "P1", "Dr. Smith", "2026-01-05 10:00:00", "", "", "", "", "", "",
        "Completed", []⟩] [] []).events (keyOf "P1" "V1") = 0 ∧
    (check_and_announce_completed_patients ⟨fun _ => true, false, fun _ => true⟩
      [⟨"V1", "P1", "Dr. Smith", "2026-01-05 10:00:00", "", "", "", "", "", "",
        "Completed", []⟩] [] []).ok = true ∧
    keyOf "P1" "V1"
      ∉ (check_and_announce_completed_patients ⟨fun _ => true, false, fun _ => true⟩
      [⟨"V1", "P1", "Dr. Smith", "2026-01-05 10:00:00", "", "", "", "", "", "",
        "Completed", []⟩] [] []).announced ∧
    countKey (check_and_announce_completed_patients ⟨fun _ => true, false, fun _ => true⟩
      [⟨"V1", "P1", "Dr. Smith", "2026-01-05 10:00:00", "", "", "", "", "", "",
        "Completed", []⟩] [⟨"P1", "Alice"⟩]
      (check_and_announce_completed_patients ⟨fun _ => true, false, fun _ => true⟩
        [⟨"V1", "P1", "Dr. Smith", "2026-01-05 10:00:00", "", "", "", "", "", "",
          "Completed", []⟩] [] []).announced).events (keyOf "P1" "V1") = 1 :=
  unresolved_patient_skip_retry ⟨fun _ => true, false, fun _ => true⟩ "P1" "V1"
    ⟨[⟨"V1", "P1", "Dr. Smith", "2026-01-05 10:00:00", "", "", "", "", "", "",
        "Completed", []⟩], []⟩
    ⟨[⟨"V1", "P1", "Dr. Smith", "2026-01-05 10:00:00", "", "", "", "", "", "",
        "Completed", []⟩], [⟨"P1", "Alice"⟩]⟩
    [] (fun _ => rfl) (by decide) (by decide) (by decide) (by decide) (by decide)

/-- C8 (amended): a manual announcement whose *display callback* raises
surfaces the failure synchronously — the exception escapes the call
(`ok = false`), nothing is displayed and the speech sink is never
reached; a *speech-sink* failure, by contrast, is caught inside the
call and silently swallowed (see the counterexample). -/
theorem manual_callback_failure_surfaces (env : SinkEnv) (patient_name : String)
    (custom_message : Option String)
    (hcb : env.cb (resolveManualMessage patient_name custom_message) = false) :
    (add_manual_announcement env patient_name custom_message).ok = false ∧
    (add_manual_announcement env patient_name custom_message).displayed = [] ∧
    (add_manual_announcement env patient_name custom_message).spokenTried = [] := by
  unfold add_manual_announcement deliverToSinks
  simp [hcb]

/-- Witness for `manual_callback_failure_surfaces` with an
always-raising display callback. -/
theorem manual_callback_failure_surfaces_witness :
    (add_manual_announcement ⟨fun _ => false, true, fun _ => true⟩ "Jane" none).ok
      = false ∧
    (add_manual_announcement ⟨fun _ => false, true, fun _ => true⟩ "Jane" none).displayed
      = [] ∧
    (add_manual_announcement ⟨fun _ => false, true, fun _ => true⟩ "Jane" none).spokenTried
      = [] :=
  manual_callback_failure_surfaces ⟨fun _ => false, true, fun _ => true⟩ "Jane" none rfl

/-- C8 counterexample: the display callback succeeds but the TTS engine
raises while speaking; the speech delivery fails (attempted but nothing
spoken) yet `add_manual_announcement` returns normally (`ok = true`) —
the caller observes no failure indication, so not every delivery
failure surfaces synchronously. -/
theorem manual_announcement_counterexample :
    (add_manual_announcement ⟨fun _ => true, true, fun _ => false⟩ "Jane" none).ok
      = true ∧
    (add_manual_announcement ⟨fun _ => true, true, fun _ => false⟩ "Jane" none).spoken
      = [] ∧
    (add_manual_announcement ⟨fun _ => true, true, fun _ => false⟩ "Jane" none).spokenTried
      = [manualMessage "Jane"] := by
  decide

/-- Members after a priority insertion. -/
theorem mem_insertByPriority (item y : AnnItem) (l : List AnnItem) :
    y ∈ insertByPriority item l ↔ y = item ∨ y ∈ l := by
  induction l with
  | nil => simp [insertByPriority]
  | cons x xs ih =>
    by_cases h : item.priority > x.priority
    · simp [insertByPriority, h, List.mem_cons]
    · simp only [insertByPriority, h, if_false, List.mem_cons, ih]
      tauto

/-- Sorted insertion preserves the priority/FIFO order when the new
item is newer than everything already queued. -/
theorem insertByPriority_pairwise (item : AnnItem) (l : List AnnItem)
    (hs : l.Pairwise priorityFifo)
    (hnew : ∀ x ∈ l, x.added_at < item.added_at) :
    (insertByPriority item l).Pairwise priorityFifo := by
  induction l with
  | nil => simp [insertByPriority]
  | cons x xs ih =>
    rcases List.pairwise_cons.mp hs with ⟨hx, hxs⟩
    by_cases h : item.priority > x.priority
    · rw [insertByPriority, if_pos h]
      refine List.pairwise_cons.mpr ⟨?_, hs⟩
      intro y hy
      rcases List.mem_cons.mp hy with rfl | hm
      · exact Or.inl h
      · rcases hx y hm with h1 | h1
        · exact Or.inl (lt_trans h1 h)
        · exact Or.inl (by rw [h1.1]; exact h)
    · rw [insertByPriority, if_neg h]
      refine List.pairwise_cons.mpr
        ⟨?_, ih hxs (fun z hz => hnew z (List.mem_cons_of_mem x hz))⟩
      intro y hy
      rcases (mem_insertByPriority item y xs).mp hy with rfl | hm
      · rcases lt_or_eq_of_le (not_lt.mp h) with h1 | h1
        · exact Or.inl h1
        · exact Or.inr ⟨h1, hnew x (List.mem_cons_self x xs)⟩
      · exact hx y hm

/-- `markAnnouncedById` only flips flags: every resulting item keeps
some original item's priority and insertion tick. -/
theorem markAnnouncedById_origin (patient_id : String) (now : Nat)
    (l : List AnnItem) :
    ∀ y ∈ markAnnouncedById patient_id now l, ∃ z ∈ l,
      y.priority = z.priority ∧ y.added_at = z.added_at := by
  induction l with
  | nil =>
    intro y hy
    simp [markAnnouncedById] at hy
  | cons x xs ih =>
    intro y hy
    by_cases h : (x.patient_id == patient_id && !x.announced) = true
    · rw [markAnnouncedById, if_pos h] at hy
      rcases List.mem_cons.mp hy with rfl | hm
      · exact ⟨x, List.mem_cons_self x xs, rfl, rfl⟩
      · exact ⟨y, List.mem_cons_of_mem x hm, rfl, rfl⟩
    · rw [markAnnouncedById, if_neg h] at hy
      rcases List.mem_cons.mp hy with rfl | hm
      · exact ⟨y, List.mem_cons_self y xs, rfl, rfl⟩
      · obtain ⟨z, hz, h1, h2⟩ := ih y hm
        exact ⟨z, List.mem_cons_of_mem x hz, h1, h2⟩

/-- `markAnnouncedById` preserves the priority/FIFO order. -/
theorem markAnnouncedById_pairwise (patient_id : String) (now : Nat)
    (l : List AnnItem) (hs : l.Pairwise priorityFifo) :
    (markAnnouncedById patient_id now l).Pairwise priorityFifo := by
  induction l with
  | nil => simp [markAnnouncedById]
  | cons x xs ih =>
    rcases List.pairwise_cons.mp hs with ⟨hx, hxs⟩
    by_cases h : (x.patient_id == patient_id && !x.announced) = true
    · rw [markAnnouncedById, if_pos h]
      refine List.pairwise_cons.mpr ⟨?_, hxs⟩
      intro y hy
      exact hx y hy
    · rw [markAnnouncedById, if_neg h]
      refine List.pairwise_cons.mpr ⟨?_, ih hxs⟩
      intro y hy
      obtain ⟨z, hz, h1, h2⟩ := markAnnouncedById_origin patient_id now xs y hy
      have hz' := hx z hz
      unfold priorityFifo at hz' ⊢
      rw [h1, h2]
      exact hz'

/-- The first-unannounced scan is `List.find?` on the negated flag. -/
theorem firstUnannounced_eq_find (l : List AnnItem) :
    firstUnannounced l = l.find? (fun item => !item.announced) := by
  induction l with
  | nil => rfl
  | cons x xs ih =>
    by_cases h : x.announced
    · simp [firstUnannounced, List.find?_cons, h, ih]
    · simp [firstUnannounced, List.find?_cons, h]

/-- C9: after any sequence of `add_to_queue`, `mark_announced` and
`remove_from_queue` operations on the initially-empty announcement
queue (clock ticks increasing), the queue is ordered by non-increasing
priority with equal-priority items in insertion (FIFO) order — every
item sits before every strictly-lower-priority item — and
`get_next_announcement` returns the first item whose `announced` flag
is false, or nothing when the queue is empty or fully announced. -/
theorem announcement_queue_invariant (ops : List AnnOp) :
    (runAnnOps ops).queue.Pairwise priorityFifo ∧
    (runAnnOps ops).queue.Pairwise (fun a b => b.priority ≤ a.priority) ∧
    (runAnnOps ops).get_next_announcement
      = (runAnnOps ops).queue.find? (fun item => !item.announced) := by
  have key : ∀ (ops : List AnnOp) (t : Nat) (q : AnnouncementQueue),
      q.queue.Pairwise priorityFifo → (∀ x ∈ q.queue, x.added_at < t) →
      (runAnnOpsFrom t q ops).queue.Pairwise priorityFifo := by
    intro ops
    induction ops with
    | nil =>
      intro t q hs _
      exact hs
    | cons op ops ih =>
      intro t q hs hb
      rw [runAnnOpsFrom]
      apply ih (t + 1)
      · cases op with
        | add patient_name patient_id priority =>
          exact insertByPriority_pairwise _ _ hs (fun x hx => hb x hx)
        | mark patient_id => exact markAnnouncedById_pairwise _ _ _ hs
        | remove patient_id => exact hs.filter _
      · cases op with
        | add patient_name patient_id priority =>
          intro x hx
          rcases (mem_insertByPriority _ x _).mp hx with rfl | hm
          · exact Nat.lt_succ_self t
          · exact Nat.lt_succ_of_lt (hb x hm)
        | mark patient_id =>
          intro x hx
          obtain ⟨z, hz, _, h2⟩ := markAnnouncedById_origin patient_id t q.queue x hx
          rw [h2]
          exact Nat.lt_succ_of_lt (hb z hz)
        | remove patient_id =>
          intro x hx
          exact Nat.lt_succ_of_lt (hb x (List.mem_of_mem_filter hx))
  have hpairs := key ops 0 ⟨[], 0⟩ List.Pairwise.nil (by simp)
  refine ⟨hpairs, hpairs.imp ?_, firstUnannounced_eq_find _⟩
  intro a b hab
  rcases hab with h1 | h1
  · exact le_of_lt h1
  · exact le_of_eq h1.1

/-- Witness for `mark_completed_frame` at a concrete visit with a
non-empty `visit_date`. -/
theorem mark_completed_frame_witness :
    OPDVisit.mark_completed "2026-01-06 09:00:00"
      ⟨"V1", "P1", "Dr. Smith", "2026-01-05 10:00:00", "cough", "cold",
        "rest", "", "", "", "In Progress", []⟩ =
      ⟨"V1", "P1", "Dr. Smith", "2026-01-05 10:00:00", "cough", "cold",
        "rest", "", "", "", "Completed", []⟩ :=
  mark_completed_frame "2026-01-06 09:00:00"
    ⟨"V1", "P1", "Dr. Smith", "2026-01-05 10:00:00", "cough", "cold",
      "rest", "", "", "", "In Progress", []⟩ (by decide)

end HospitalManager
